import Mathlib

/-!
# A verification development for the `bugs` issue tracker (`bugs.go`)

The tracker keeps one global Document (`db`), loaded once from `bugs.xml`, and
serves four HTTP handlers that read and mutate it.  This file embeds the data
model and the handlers as pure functions over an explicit state and proves
properties of them.

Modelling conventions.

* Go `int` is the 64-bit two's-complement integer: values are `Int`s and the
  one arithmetic operation of the program (`db.NextId++`) is wrapped with
  `wrapInt`.
* A Go slice is a `List`; `append` is `++ [x]`.  A pointer into the Document
  (`&db.Parts[i]`, `&p.Bugs[i]`) is the position it points at, and a write
  through the pointer is an update at that position.  A `range` loop copies the
  `Part` header by value, but the copy's `Bugs` slice shares its backing array
  with the Document, so element writes made through the copy land in the
  Document; the functions below say so where it matters.
  For `setLast` this is also proved, against a second version of the three
  methods that runs over a heap of backing arrays (`setLastHeap_read`).
* `Bug.Last` is a `*Change`; the model keeps the Change it points at
  (`none` for `nil`).  Changes are never modified in place.
* A panic is an outcome of its own; the state carried with it is the state at
  the moment of the panic (net/http recovers a handler's panic and the server
  keeps running on that state).
* The file system is three named files; the XML codec, the template engine
  and the clock are parameters (`Env`).
-/

namespace Bugs

/-! ## Go integers and `strconv` -/

/-- Largest Go `int` (64-bit). -/
def maxInt : Int := 2 ^ 63 - 1

/-- Smallest Go `int` (64-bit). -/
def minInt : Int := -(2 ^ 63)

/-- Two's-complement wrap-around of a mathematical integer into the Go `int` range. -/
def wrapInt (x : Int) : Int := (x - minInt) % 2 ^ 64 + minInt

/-- Value of a decimal digit byte, `none` for any other byte. -/
def digitVal (c : Char) : Option Nat :=
  if 48 ≤ c.toNat ∧ c.toNat ≤ 57 then some (c.toNat - 48) else none

/-- Accumulate decimal digits left to right; `none` at the first non-digit. -/
def parseDigits : List Char → Nat → Option Nat
  | [], acc => some acc
  | c :: cs, acc =>
    match digitVal c with
    | none => none
    | some d => parseDigits cs (acc * 10 + d)

/-- The function `strconv.Atoi`: an optional sign, then one or more decimal digits, and the
value must fit a Go `int`; `none` stands for a non-nil `err`. -/
def Atoi (s : String) : Option Int :=
  match s.toList with
  | [] => none
  | c :: cs =>
    let ds := if c = '-' ∨ c = '+' then cs else c :: cs
    match ds with
    | [] => none
    | _ :: _ =>
      match parseDigits ds 0 with
      | none => none
      | some n =>
        let v : Int := if c = '-' then -(n : Int) else (n : Int)
        if minInt ≤ v ∧ v ≤ maxInt then some v else none

/-- Decimal digits of a natural number, most significant first (`fuel` bounds the length). -/
def digitsAux : Nat → Nat → List Char → List Char
  | 0, _, acc => acc
  | fuel + 1, n, acc =>
    let acc1 := Char.ofNat (48 + n % 10) :: acc
    if n / 10 = 0 then acc1 else digitsAux fuel (n / 10) acc1

/-- The function `strconv.Itoa`: base-10 text of a Go `int`, with a leading `-` when negative. -/
def Itoa (i : Int) : String :=
  let ds := String.mk (digitsAux (i.natAbs + 1) i.natAbs [])
  if i < 0 then "-" ++ ds else ds

/-! ## Data model (`Change`, `Bug`, `Part`, `User`, `Db`) -/

/-- The struct `Change`. `When` is a `time.Time`, kept as an abstract instant. -/
structure Change where
  When : Nat
  Who : String
  Status : Int
  Comment : String
  deriving DecidableEq, Repr

/-- The struct `Bug`. `Last` is the Change that the `*Change` points at. -/
structure Bug where
  Id : Int
  Subject : String
  Changes : List Change
  Last : Option Change
  deriving DecidableEq, Repr

/-- The struct `Part`. -/
structure Part where
  Name : String
  Id : Int
  Bugs : List Bug
  deriving DecidableEq, Repr

/-- The struct `User`. -/
structure User where
  Name : String
  Address : String
  deriving DecidableEq, Repr

/-- The struct `Db`, the Document. -/
structure Db where
  NextId : Int
  Users : List User
  Parts : List Part
  deriving DecidableEq, Repr

/-! ## Pointers into the Document -/

/-- Write through a pointer to element `i` of a slice: replace that element by `f` of it.
An index past the end changes nothing. -/
def modifyAt {α : Type} (f : α → α) : Nat → List α → List α
  | _, [] => []
  | 0, x :: xs => f x :: xs
  | i + 1, x :: xs => x :: modifyAt f i xs

/-- A `*Bug` into the Document: the index of the Part in `db.Parts` and of the Bug in its
`Bugs`. -/
structure BugPtr where
  part : Nat
  bug : Nat
  deriving DecidableEq, Repr

/-- Read the Bug a pointer refers to. -/
def Db.bugAt (db : Db) (ptr : BugPtr) : Option Bug :=
  match db.Parts[ptr.part]? with
  | none => none
  | some p => p.Bugs[ptr.bug]?

/-- Write through a `*Bug`. -/
def Db.modifyBug (db : Db) (ptr : BugPtr) (f : Bug → Bug) : Db :=
  { db with
    Parts := modifyAt (fun p => { p with Bugs := modifyAt f ptr.bug p.Bugs }) ptr.part db.Parts }

/-- Write through a `*Part`. -/
def Db.modifyPart (db : Db) (i : Nat) (f : Part → Part) : Db :=
  { db with Parts := modifyAt f i db.Parts }

/-- All Bugs of the Document in traversal order: Parts in document order, and within a Part
its Bugs in list order. -/
def Db.allBugs (db : Db) : List Bug :=
  db.Parts.flatMap Part.Bugs

/-! ## `setLast` -/

/-- The method `(b *Bug) setLast`: with at least one Change, `Last` points at the final one;
with none, `Last` is left as it is. -/
def Bug.setLast (b : Bug) : Bug :=
  let size := b.Changes.length
  if size > 0 then { b with Last := b.Changes[size - 1]? } else b

/-- The method `(p *Part) setLast`: `setLast` on every element of `p.Bugs` in place. -/
def Part.setLast (p : Part) : Part :=
  { p with Bugs := p.Bugs.map Bug.setLast }

/-- The method `(db *Db) setLast`.  The loop variable `p` is a copy of the Part, so whatever
`p.setLast()` did to the header fields of the copy is dropped; the Bugs it wrote are elements
of the backing array the copy shares with `db.Parts[i].Bugs`, so those writes stay. -/
def Db.setLast (db : Db) : Db :=
  { db with Parts := db.Parts.map (fun p => { p with Bugs := (Part.setLast p).Bugs }) }

/-! ## `setLast` with the slices in memory

The definitions above take for granted that a write through `&(p.Bugs[i])`, made on the copy
`p` of a Part, lands in the Document.  Here the same three methods are written over a heap
that holds the backing arrays, with a Part value carrying only the slice header, so that this
is a theorem (`setLastHeap_read`) and not a convention. -/

/-- A `[]Bug` value: the address of its backing array and its length. -/
structure BugSlice where
  addr : Nat
  len : Nat
  deriving DecidableEq, Repr

/-- A `Part` value as Go holds it: `Bugs` is the slice header, the Bugs are in the heap. -/
structure PartVal where
  Name : String
  Id : Int
  Bugs : BugSlice
  deriving DecidableEq, Repr

/-- The heap: the backing array of Bugs at each address. -/
abbrev Heap := Nat → List Bug

/-- The statements `b := &(p.Bugs[i]); b.setLast()`: element `i` of the backing array of the
slice is overwritten in place. -/
def setLastAt (h : Heap) (s : BugSlice) (i : Nat) : Heap :=
  fun a => if a = s.addr then modifyAt Bug.setLast i (h a) else h a

/-- The loop `for i := ...; i < len(p.Bugs); i++` of `(p *Part) setLast` with `n` iterations
left, at index `i`. -/
def PartVal.setLastLoop (p : PartVal) : Nat → Nat → Heap → Heap
  | 0, _, h => h
  | n + 1, i, h => PartVal.setLastLoop p n (i + 1) (setLastAt h p.Bugs i)

/-- The method `(p *Part) setLast` on the heap. -/
def PartVal.setLast (p : PartVal) (h : Heap) : Heap :=
  PartVal.setLastLoop p p.Bugs.len 0 h

/-- The method `(db *Db) setLast` on the heap: each iteration copies `db.Parts[k]` into `p`
and calls `p.setLast()` on the copy; the copy is dropped at the end of the iteration and
`db.Parts` itself is never written. -/
def setLastHeap (parts : List PartVal) (h : Heap) : Heap :=
  parts.foldl (fun h1 p => PartVal.setLast p h1) h

/-- The Part that a Part value denotes: its Bugs are the first `len` elements of its backing
array. -/
def PartVal.read (h : Heap) (p : PartVal) : Part :=
  ⟨p.Name, p.Id, (h p.Bugs.addr).take p.Bugs.len⟩

/-! ## `findBug`, `findPart` -/

/-- A linear scan `for i, x := range xs { if P x { return i } }`: the index of the first
element satisfying `P`, `none` when the loop runs out. -/
def firstIndex {α : Type} (P : α → Prop) [DecidablePred P] : List α → Option Nat
  | [] => none
  | x :: xs => if P x then some 0 else (firstIndex P xs).map (· + 1)

/-- The inner loop of `findBug`: index of the first Bug of the slice whose `Id` is `id`. -/
def findBugIn (id : Int) (bugs : List Bug) : Option Nat :=
  firstIndex (fun b => b.Id = id) bugs

/-- The outer loop of `findBug` over the Parts from index `k` on. -/
def findBugFrom (id : Int) : List Part → Nat → Option BugPtr
  | [], _ => none
  | p :: ps, k =>
    match findBugIn id p.Bugs with
    | some i => some ⟨k, i⟩
    | none => findBugFrom id ps (k + 1)

/-- The function `findBug`: `none` is the nil pointer. -/
def findBug (db : Db) (id : Int) : Option BugPtr :=
  findBugFrom id db.Parts 0

/-- The function `findPart`: the index `i` of the returned `&db.Parts[i]`; `none` is nil. -/
def findPart (db : Db) (id : Int) : Option Nat :=
  firstIndex (fun p => p.Id = id) db.Parts

/-! ## Requests, responses, environment -/

/-- An HTTP request, reduced to its form values (URL query and body, first value first). -/
structure Request where
  form : List (String × String)

/-- The method `r.FormValue(key)`: the first value for the key, `""` when there is none. -/
def FormValue (r : Request) (key : String) : String :=
  match r.form.find? (fun kv => kv.1 = key) with
  | some kv => kv.2
  | none => ""

/-- What a handler has written to the `http.ResponseWriter` when it returns. -/
inductive Response where
  | empty
  | redirect (url : String) (code : Nat)
  | page (body : String)
  deriving DecidableEq, Repr

/-- How a handler invocation ends. -/
inductive Outcome where
  | returned (resp : Response)
  | panicked
  deriving DecidableEq, Repr

/-- The constant `http.StatusSeeOther`. -/
def StatusSeeOther : Nat := 303

/-- The three files the program touches: `bugs.xml`, `bugs.xml.old`, `bugs.tmp`. -/
structure Disk where
  config : Option String
  old : Option String
  tmp : Option String
  deriving DecidableEq, Repr

/-- The persisted fields of a Bug (`Last` is tagged `xml:"-"`). -/
structure XBug where
  Id : Int
  Subject : String
  Changes : List Change
  deriving DecidableEq, Repr

/-- The persisted fields of a Part. -/
structure XPart where
  Name : String
  Id : Int
  Bugs : List XBug
  deriving DecidableEq, Repr

/-- The persisted fields of the Document. -/
structure XDb where
  NextId : Int
  Users : List User
  Parts : List XPart
  deriving DecidableEq, Repr

/-- What `tmpl.Execute` is given: the Document for "root"; for "bug" the struct `T` with the
Users and the `*Bug`, here the Bug the pointer refers to. -/
inductive TemplateData where
  | root (db : Db)
  | bug (users : List User) (b : Option Bug)

/-- Everything outside the program that a run depends on. -/
structure Env where
  /-- The result of `time.Now()`. -/
  now : Nat
  /-- Whether `os.Create("bugs.tmp")` succeeds. -/
  createOk : Bool
  /-- The text `xml.Header`. -/
  xmlHeader : String
  /-- The call `xml.MarshalIndent(db, "", "\t")`; `none` is a non-nil `err`. -/
  marshal : XDb → Option String
  /-- The call `xml.Unmarshal(b, db)` on the zero Document: what has been decoded when the
  call returns, and whether the returned `err` is nil. -/
  unmarshal : String → XDb × Bool
  /-- Contents of a template file by path; `none` when `os.Open` fails. -/
  templateFile : String → Option String
  /-- Whether `template.New(name).Parse(text)` succeeds. -/
  parseOk : String → String → Bool
  /-- The call `tmpl.Execute(w, data)` for template text: the rendered page, `none` on error. -/
  execute : String → TemplateData → Option String

/-- The process state: the global `db` and the files. -/
structure State where
  db : Db
  disk : Disk

/-- A handler invocation: the state it leaves and how it ended. -/
structure Result where
  st : State
  out : Outcome

/-! ## `load`, `save` -/

/-- The persisted view of a Bug. -/
def Bug.toX (b : Bug) : XBug := ⟨b.Id, b.Subject, b.Changes⟩

/-- The persisted view of a Part. -/
def Part.toX (p : Part) : XPart := ⟨p.Name, p.Id, p.Bugs.map Bug.toX⟩

/-- The persisted view of the Document. -/
def Db.toX (db : Db) : XDb := ⟨db.NextId, db.Users, db.Parts.map Part.toX⟩

/-- A decoded Bug in memory: `Last` is nil. -/
def XBug.toBug (b : XBug) : Bug := ⟨b.Id, b.Subject, b.Changes, none⟩

/-- A decoded Part in memory. -/
def XPart.toPart (p : XPart) : Part := ⟨p.Name, p.Id, p.Bugs.map XBug.toBug⟩

/-- A decoded Document in memory. -/
def XDb.toDb (d : XDb) : Db := ⟨d.NextId, d.Users, d.Parts.map XPart.toPart⟩

/-- The method `(db *Db) load`, called once by `main` on the zero-valued global: `none` is
the panic on a failed `os.Open`.  The value returned by `xml.Unmarshal` is discarded. -/
def Db.load (env : Env) (disk : Disk) : Option Db :=
  match disk.config with
  | none => none
  | some bytes => some (Db.setLast (env.unmarshal bytes).1.toDb)

/-- The method `(db *Db) save`: `Except.error` is a panic, with the files as they are then. -/
def Db.save (env : Env) (db : Db) (disk : Disk) : Except Disk Disk :=
  if env.createOk = false then .error disk
  else
    match env.marshal db.toX with
    | none => .error { disk with tmp := some env.xmlHeader }
    | some b =>
      let d1 : Disk := { disk with tmp := some (env.xmlHeader ++ b) }
      let d2 : Disk := { d1 with old := none }
      let d3 : Disk :=
        match d2.config with
        | some c => { d2 with old := some c, config := none }
        | none => d2
      .ok { d3 with config := d3.tmp, tmp := none }

/-! ## Handlers -/

/-- The function `loadTemplate`: the template text, `none` for a panic. -/
def loadTemplate (env : Env) (filename : String) : Option String :=
  match env.templateFile ("tmpl/" ++ filename ++ ".template") with
  | none => none
  | some text => if env.parseOk filename text then some text else none

/-- The handler `handlerRoot`. -/
def handlerRoot (env : Env) (st : State) (_r : Request) : Result :=
  match loadTemplate env "root" with
  | none => ⟨st, .panicked⟩
  | some tmpl =>
    match env.execute tmpl (.root st.db) with
    | none => ⟨st, .panicked⟩
    | some body => ⟨st, .returned (.page body)⟩

/-- The handler `handlerBug`. -/
def handlerBug (env : Env) (st : State) (r : Request) : Result :=
  let s := FormValue r "id"
  if s = "" then ⟨st, .returned .empty⟩
  else
    match Atoi s with
    | none => ⟨st, .panicked⟩
    | some id =>
      match findBug st.db id with
      | none => ⟨st, .returned .empty⟩
      | some ptr =>
        match loadTemplate env "bug" with
        | none => ⟨st, .panicked⟩
        | some tmpl =>
          match env.execute tmpl (.bug st.db.Users (st.db.bugAt ptr)) with
          | none => ⟨st, .panicked⟩
          | some body => ⟨st, .returned (.page body)⟩

/-- The function `handlerChange1`: `Except.ok` is a normal return, `Except.error` a panic,
each with the state at that point. -/
def handlerChange1 (env : Env) (st : State) (r : Request) (id : Int) : Except State State :=
  match findBug st.db id with
  | none => .ok st
  | some ptr =>
    let subject := FormValue r "subject"
    if subject = "" then .ok st
    else
      let db1 := st.db.modifyBug ptr (fun b => { b with Subject := subject })
      match Atoi (FormValue r "status") with
      | none => .error { st with db := db1 }
      | some status =>
        let c : Change :=
          { When := env.now, Who := FormValue r "who", Status := status,
            Comment := FormValue r "comment" }
        let db2 := db1.modifyBug ptr (fun b => { b with Changes := b.Changes ++ [c] })
        let db3 := db2.modifyBug ptr Bug.setLast
        match Db.save env db3 st.disk with
        | .error disk1 => .error ⟨db3, disk1⟩
        | .ok disk1 => .ok ⟨db3, disk1⟩

/-- The handler `handlerChange`. -/
def handlerChange (env : Env) (st : State) (r : Request) : Result :=
  let sId := FormValue r "id"
  if sId = "" then ⟨st, .returned .empty⟩
  else
    match Atoi sId with
    | none => ⟨st, .panicked⟩
    | some id =>
      match handlerChange1 env st r id with
      | .error st1 => ⟨st1, .panicked⟩
      | .ok st1 => ⟨st1, .returned (.redirect ("/bug?id=" ++ sId) StatusSeeOther)⟩

/-- The handler `handlerNewBug`.  The nil `p` is dereferenced only at `p.Bugs`, after
`db.NextId++`. -/
def handlerNewBug (_env : Env) (st : State) (r : Request) : Result :=
  let sId := FormValue r "partId"
  if sId = "" then ⟨st, .returned .empty⟩
  else
    match Atoi sId with
    | none => ⟨st, .panicked⟩
    | some id =>
      let p := findPart st.db id
      let b : Bug :=
        { Id := st.db.NextId, Subject := FormValue r "subject", Changes := [], Last := none }
      let db1 : Db := { st.db with NextId := wrapInt (st.db.NextId + 1) }
      match p with
      | none => ⟨{ st with db := db1 }, .panicked⟩
      | some i =>
        let db2 := db1.modifyPart i (fun q => { q with Bugs := q.Bugs ++ [b] })
        let db3 := db2.setLast
        ⟨{ st with db := db3 },
          .returned (.redirect ("/bug?id=" ++ Itoa b.Id) StatusSeeOther)⟩

/-- The four routes registered in `main` that run code of this program. -/
inductive Endpoint where
  | root
  | bug
  | change
  | newBug
  deriving DecidableEq, Repr

/-- One request served on one of the routes. -/
def serve (ep : Endpoint) (env : Env) (st : State) (r : Request) : Result :=
  match ep with
  | .root => handlerRoot env st r
  | .bug => handlerBug env st r
  | .change => handlerChange env st r
  | .newBug => handlerNewBug env st r

/-! ## Predicates of the specification -/

/-- A Bug's last-change reference is the last element of its Changes, and nil when there is
none. -/
def Bug.InSync (b : Bug) : Prop :=
  b.Last = b.Changes.getLast?

/-- Every Bug of every Part has its last-change reference in sync. -/
def Db.LastInSync (db : Db) : Prop :=
  ∀ p ∈ db.Parts, ∀ b ∈ p.Bugs, b.InSync

/-- No two Bugs of the Document share an id, and every id is below the next-id counter. -/
def IdInv (db : Db) : Prop :=
  (db.allBugs.map Bug.Id).Nodup ∧ ∀ b ∈ db.allBugs, b.Id < db.NextId

instance (b : Bug) : Decidable b.InSync := by
  unfold Bug.InSync; infer_instance

instance (db : Db) : Decidable db.LastInSync := by
  unfold Db.LastInSync; infer_instance

instance (db : Db) : Decidable (IdInv db) := by
  unfold IdInv; infer_instance

/-- The states the program can be in: the one `main` gets from `load`, and any state a
served request leaves (whatever the clock, the files and the templates do meanwhile). -/
inductive Reachable : State → Prop where
  | load (env : Env) (disk : Disk) (db : Db) (h : Db.load env disk = some db) :
      Reachable ⟨db, disk⟩
  | step (ep : Endpoint) (env : Env) (st : State) (r : Request) (h : Reachable st) :
      Reachable (serve ep env st r).st

/-! ## Concrete inputs -/

/-- An environment in which nothing fails; the clock reads 7 and the decoder knows one file. -/
def envOk : Env :=
  { now := 7
    createOk := true
    xmlHeader := "<?xml?>"
    marshal := fun _ => some "<db/>"
    unmarshal := fun s =>
      if s = "core.xml" then (⟨0, [], [⟨"core", 1, []⟩]⟩, true) else (⟨0, [], []⟩, false)
    templateFile := fun _ => some "t"
    parseOk := fun _ _ => true
    execute := fun _ _ => some "page" }

/-- The files before a request: `bugs.xml` holds the Document with one empty Part. -/
def diskCore : Disk := ⟨some "core.xml", none, none⟩

/-- The Document of scenario 1: next-id 0, no users, one Part `core` with id 1. -/
def dbCore : Db := ⟨0, [], [⟨"core", 1, []⟩]⟩

/-- The Document of scenario 2: Bug 0 with no changes. -/
def dbOneBug : Db := ⟨1, [], [⟨"core", 1, [⟨0, "Crash on startup", [], none⟩]⟩]⟩

/-- The Document of scenario 1 with its counter at the largest `int`. -/
def dbFull : Db := ⟨maxInt, [], [⟨"core", 1, []⟩]⟩

/-- The request `POST /newBug?partId=1` with `subject=Crash on startup`. -/
def reqNewBug : Request := ⟨[("partId", "1"), ("subject", "Crash on startup")]⟩

/-- The request `POST /newBug?partId=2`: no Part has id 2. -/
def reqNewBugNoPart : Request := ⟨[("partId", "2"), ("subject", "Crash on startup")]⟩

/-- The request `POST /change?id=0` of scenario 2. -/
def reqChange : Request :=
  ⟨[("id", "0"), ("subject", "Crash fixed"), ("status", "2"), ("who", "alice"),
    ("comment", "Patched")]⟩

/-- The request `POST /change?id=999`: no Bug has id 999. -/
def reqChangeNoBug : Request :=
  ⟨[("id", "999"), ("subject", "Crash fixed"), ("status", "2"), ("who", "alice"),
    ("comment", "Patched")]⟩

/-- The request `POST /change?id=0` with a subject and a status that is not a number. -/
def reqChangeBadStatus : Request :=
  ⟨[("id", "0"), ("subject", "Crash fixed"), ("status", "abc"), ("who", "alice"),
    ("comment", "Patched")]⟩

/-- The files when `bugs.xml` has been cut off in the middle of a Part. -/
def diskTruncated : Disk := ⟨some "<db><nextId>5</nextId><part>", none, none⟩

/-- An environment whose decoder hits the end of that file: it has stored the counter by
then, and returns an error. -/
def envTruncated : Env :=
  { envOk with unmarshal := fun _ => (⟨5, [], []⟩, false) }

/-! ## Lemmas on slices and lookups -/

theorem getElem?_modifyAt_eq {α : Type} (f : α → α) (i : Nat) (l : List α) :
    (modifyAt f i l)[i]? = (l[i]?).map f := by
  induction l generalizing i with
  | nil => simp [modifyAt]
  | cons x xs ih =>
    cases i with
    | zero => simp [modifyAt]
    | succ i => simpa [modifyAt] using ih i

theorem getElem?_modifyAt_ne {α : Type} (f : α → α) (i j : Nat) (l : List α) (h : j ≠ i) :
    (modifyAt f i l)[j]? = l[j]? := by
  induction l generalizing i j with
  | nil => simp [modifyAt]
  | cons x xs ih =>
    cases i with
    | zero =>
      cases j with
      | zero => exact absurd rfl h
      | succ j => simp [modifyAt]
    | succ i =>
      cases j with
      | zero => simp [modifyAt]
      | succ j =>
        have hji : j ≠ i := fun e => h (by rw [e])
        simpa [modifyAt] using ih i j hji

theorem map_modifyAt_of_eq {α β : Type} (f : α → α) (g : α → β) (i : Nat) (l : List α)
    (h : ∀ x, g (f x) = g x) : (modifyAt f i l).map g = l.map g := by
  induction l generalizing i with
  | nil => simp [modifyAt]
  | cons x xs ih =>
    cases i with
    | zero => simp [modifyAt, h]
    | succ i => simp [modifyAt, ih]

theorem mem_modifyAt {α : Type} (f : α → α) (i : Nat) (l : List α) (y : α)
    (h : y ∈ modifyAt f i l) : y ∈ l ∨ ∃ x, l[i]? = some x ∧ y = f x := by
  induction l generalizing i with
  | nil => simp [modifyAt] at h
  | cons x xs ih =>
    cases i with
    | zero =>
      simp only [modifyAt, List.mem_cons] at h
      rcases h with h | h
      · exact Or.inr ⟨x, by simp, h⟩
      · exact Or.inl (List.mem_cons_of_mem _ h)
    | succ i =>
      simp only [modifyAt, List.mem_cons] at h
      rcases h with h | h
      · exact Or.inl (by simp [h])
      · rcases ih i h with h1 | ⟨z, hz, hy⟩
        · exact Or.inl (List.mem_cons_of_mem _ h1)
        · exact Or.inr ⟨z, by simpa using hz, hy⟩

theorem firstIndex_eq_none {α : Type} (P : α → Prop) [DecidablePred P] (l : List α) :
    firstIndex P l = none ↔ ∀ x ∈ l, ¬ P x := by
  induction l with
  | nil => simp [firstIndex]
  | cons x xs ih =>
    by_cases hx : P x
    · simp [firstIndex, hx]
    · simp [firstIndex, hx, ih]

theorem firstIndex_eq_some {α : Type} (P : α → Prop) [DecidablePred P] (l : List α) (i : Nat)
    (h : firstIndex P l = some i) :
    ∃ x, l[i]? = some x ∧ P x ∧ ∀ j, j < i → ∀ y, l[j]? = some y → ¬ P y := by
  induction l generalizing i with
  | nil => simp [firstIndex] at h
  | cons x xs ih =>
    by_cases hx : P x
    · simp only [firstIndex, hx, if_true, Option.some.injEq] at h
      subst h
      exact ⟨x, by simp, hx, fun j hj => absurd hj (Nat.not_lt_zero j)⟩
    · simp only [firstIndex, hx, if_false, Option.map_eq_some'] at h
      obtain ⟨k, hk, rfl⟩ := h
      obtain ⟨z, hz, hPz, hfirst⟩ := ih k hk
      refine ⟨z, by simpa using hz, hPz, ?_⟩
      intro j hj y hy
      cases j with
      | zero =>
        simp at hy
        subst hy
        exact hx
      | succ j =>
        exact hfirst j (Nat.lt_of_succ_lt_succ hj) y (by simpa using hy)

theorem firstIndex_isSome_of_mem {α : Type} (P : α → Prop) [DecidablePred P] (l : List α)
    (x : α) (hx : x ∈ l) (hP : P x) : ∃ i, firstIndex P l = some i := by
  cases h : firstIndex P l with
  | some i => exact ⟨i, rfl⟩
  | none => exact absurd hP ((firstIndex_eq_none P l).1 h x hx)

theorem find?_eq_firstIndex {α : Type} (P : α → Prop) [DecidablePred P] (l : List α) :
    l.find? (fun x => decide (P x)) = (firstIndex P l).bind (fun i => l[i]?) := by
  induction l with
  | nil => simp [firstIndex]
  | cons x xs ih =>
    by_cases hx : P x
    · simp [firstIndex, hx]
    · simp only [List.find?, hx, decide_False, firstIndex, if_false, ih]
      cases firstIndex P xs <;> simp

/-- What the scan of `findBug` over the Parts from index `k` on returns when it finds a Bug:
the Part, the Bug, and that nothing earlier in traversal order has the id. -/
theorem findBugFrom_eq_some (id : Int) (ps : List Part) (k : Nat) (ptr : BugPtr)
    (h : findBugFrom id ps k = some ptr) :
    ∃ i p b, ptr.part = k + i ∧ ps[i]? = some p ∧ p.Bugs[ptr.bug]? = some b ∧ b.Id = id ∧
      (∀ j, j < i → ∀ q, ps[j]? = some q → ∀ c ∈ q.Bugs, c.Id ≠ id) ∧
      (∀ j, j < ptr.bug → ∀ c, p.Bugs[j]? = some c → c.Id ≠ id) ∧
      (ps.flatMap Part.Bugs).find? (fun x => decide (x.Id = id)) = some b := by
  induction ps generalizing k with
  | nil => simp [findBugFrom] at h
  | cons p ps ih =>
    cases hin : findBugIn id p.Bugs with
    | some i =>
      simp only [findBugFrom, hin, Option.some.injEq] at h
      subst h
      obtain ⟨b, hb, hid, hfirst⟩ := firstIndex_eq_some _ _ _ hin
      refine ⟨0, p, b, rfl, by simp, hb, hid, ?_, hfirst, ?_⟩
      · intro j hj
        exact absurd hj (Nat.not_lt_zero j)
      · have hf := find?_eq_firstIndex (fun x : Bug => x.Id = id) p.Bugs
        unfold findBugIn at hin
        rw [hin] at hf
        simp only [Option.bind] at hf
        rw [hb] at hf
        simp [List.flatMap_cons, List.find?_append, hf]
    | none =>
      simp only [findBugFrom, hin] at h
      obtain ⟨i, q, b, hpart, hq, hb, hid, hparts, hbugs, hfind⟩ := ih (k + 1) h
      have hnone : ∀ c ∈ p.Bugs, c.Id ≠ id := (firstIndex_eq_none _ _).1 hin
      refine ⟨i + 1, q, b, by omega, by simpa using hq, hb, hid, ?_, hbugs, ?_⟩
      · intro j hj r hr c hc
        cases j with
        | zero =>
          simp at hr
          subst hr
          exact hnone c hc
        | succ j => exact hparts j (by omega) r (by simpa using hr) c hc
      · have hf : p.Bugs.find? (fun x => decide (x.Id = id)) = none := by
          rw [List.find?_eq_none]
          intro x hx
          simpa using hnone x hx
        simp [List.flatMap_cons, List.find?_append, hf, hfind]

theorem findBugFrom_eq_none (id : Int) (ps : List Part) (k : Nat) :
    findBugFrom id ps k = none ↔ ∀ p ∈ ps, ∀ b ∈ p.Bugs, b.Id ≠ id := by
  induction ps generalizing k with
  | nil => simp [findBugFrom]
  | cons p ps ih =>
    cases hin : findBugIn id p.Bugs with
    | some i =>
      obtain ⟨b, hb, hid, _⟩ := firstIndex_eq_some _ _ _ hin
      simp only [findBugFrom, hin]
      constructor
      · intro hcon
        cases hcon
      · intro hall
        have hmem : b ∈ p.Bugs := List.getElem?_mem hb
        exact absurd hid (hall p (List.mem_cons_self _ _) b hmem)
    | none =>
      have hnone : ∀ c ∈ p.Bugs, c.Id ≠ id := (firstIndex_eq_none _ _).1 hin
      simp only [findBugFrom, hin, ih (k + 1), List.mem_cons, forall_eq_or_imp]
      exact ⟨fun h => ⟨hnone, h⟩, fun h => h.2⟩

theorem mem_allBugs (db : Db) (b : Bug) :
    b ∈ db.allBugs ↔ ∃ p ∈ db.Parts, b ∈ p.Bugs := by
  simp [Db.allBugs, List.mem_flatMap]

theorem bugAt_mem (db : Db) (q : BugPtr) (c : Bug) (h : db.bugAt q = some c) :
    ∃ p, db.Parts[q.part]? = some p ∧ p.Bugs[q.bug]? = some c := by
  unfold Db.bugAt at h
  cases hp : db.Parts[q.part]? with
  | none => simp [hp] at h
  | some p =>
    simp only [hp] at h
    exact ⟨p, rfl, h⟩

theorem bugAt_modifyBug_eq (db : Db) (ptr : BugPtr) (f : Bug → Bug) :
    (db.modifyBug ptr f).bugAt ptr = (db.bugAt ptr).map f := by
  unfold Db.bugAt Db.modifyBug
  simp only [getElem?_modifyAt_eq]
  cases db.Parts[ptr.part]? with
  | none => rfl
  | some p => simp [getElem?_modifyAt_eq]

theorem bugAt_modifyBug_ne (db : Db) (ptr q : BugPtr) (f : Bug → Bug) (h : q ≠ ptr) :
    (db.modifyBug ptr f).bugAt q = db.bugAt q := by
  unfold Db.bugAt Db.modifyBug
  by_cases hp : q.part = ptr.part
  · have hb : q.bug ≠ ptr.bug := by
      intro hb
      apply h
      cases q
      cases ptr
      simp_all
    simp only [hp, getElem?_modifyAt_eq]
    cases db.Parts[ptr.part]? with
    | none => rfl
    | some p => simp [getElem?_modifyAt_ne _ _ _ _ hb]
  · simp only [getElem?_modifyAt_ne _ _ _ _ hp]

theorem modifyBug_headers (db : Db) (ptr : BugPtr) (f : Bug → Bug) :
    (db.modifyBug ptr f).Parts.map (fun p => (p.Name, p.Id)) =
      db.Parts.map (fun p => (p.Name, p.Id)) := by
  unfold Db.modifyBug
  exact map_modifyAt_of_eq _ _ _ _ (fun _ => rfl)

theorem Atoi_empty : Atoi "" = none := by decide

theorem findBug_isSome_of_mem (db : Db) (id : Int) (h : ∃ b ∈ db.allBugs, b.Id = id) :
    ∃ ptr, findBug db id = some ptr := by
  cases hf : findBug db id with
  | some ptr => exact ⟨ptr, rfl⟩
  | none =>
    obtain ⟨b, hb, hid⟩ := h
    obtain ⟨p, hp, hbp⟩ := (mem_allBugs db b).1 hb
    exact absurd hid ((findBugFrom_eq_none id db.Parts 0).1 hf p hp b hbp)

/-- The Document that `handlerChange` leaves when the id parses, the Bug is found, the subject
is not empty and the status parses, whether or not `save` then panics. -/
theorem handlerChange_db (env : Env) (st : State) (r : Request) (id status : Int)
    (ptr : BugPtr) (hid : Atoi (FormValue r "id") = some id)
    (hfind : findBug st.db id = some ptr) (hsubj : FormValue r "subject" ≠ "")
    (hstatus : Atoi (FormValue r "status") = some status) :
    (handlerChange env st r).st.db =
      (((st.db.modifyBug ptr (fun b => { b with Subject := FormValue r "subject" })).modifyBug ptr
        (fun b => { b with Changes := b.Changes ++
          [⟨env.now, FormValue r "who", status, FormValue r "comment"⟩] })).modifyBug ptr
        Bug.setLast) := by
  have hne : FormValue r "id" ≠ "" := by
    intro he
    rw [he, Atoi_empty] at hid
    cases hid
  unfold handlerChange handlerChange1
  simp only [hne, if_false, hid, hfind, hsubj, hstatus]
  cases Db.save env _ st.disk <;> rfl

theorem findBug_some_bugAt (db : Db) (id : Int) (ptr : BugPtr) (h : findBug db id = some ptr) :
    ∃ b, db.bugAt ptr = some b ∧ b.Id = id := by
  obtain ⟨i, p, b, hpart, hp, hb, hid, _⟩ := findBugFrom_eq_some id db.Parts 0 ptr h
  have hi : ptr.part = i := by omega
  subst hi
  exact ⟨b, by simp [Db.bugAt, hp, hb], hid⟩

theorem modifyBug_modifyBug (db : Db) (ptr : BugPtr) (f g : Bug → Bug) :
    (db.modifyBug ptr f).modifyBug ptr g = db.modifyBug ptr (fun b => g (f b)) := by
  have hin : ∀ (i : Nat) (l : List Bug), modifyAt g i (modifyAt f i l) =
      modifyAt (fun b => g (f b)) i l := by
    intro i l
    induction l generalizing i with
    | nil => simp [modifyAt]
    | cons x xs ih =>
      cases i with
      | zero => simp [modifyAt]
      | succ i => simp [modifyAt, ih]
  have hout : ∀ (i : Nat) (l : List Part),
      modifyAt (fun p : Part => { p with Bugs := modifyAt g ptr.bug p.Bugs }) i
        (modifyAt (fun p : Part => { p with Bugs := modifyAt f ptr.bug p.Bugs }) i l) =
      modifyAt (fun p : Part => { p with Bugs := modifyAt (fun b => g (f b)) ptr.bug p.Bugs }) i
        l := by
    intro i l
    induction l generalizing i with
    | nil => simp [modifyAt]
    | cons x xs ih =>
      cases i with
      | zero => simp [modifyAt, hin]
      | succ i => simp [modifyAt, ih]
  unfold Db.modifyBug
  simp only [hout]

/-! ### Last-change references -/

theorem bugSetLast_def (b : Bug) :
    Bug.setLast b =
      match b.Changes.getLast? with
      | some c => { b with Last := some c }
      | none => b := by
  unfold Bug.setLast
  cases hc : b.Changes with
  | nil => simp
  | cons x xs =>
    have hl : (x :: xs).getLast? = (x :: xs)[(x :: xs).length - 1]? :=
      List.getLast?_eq_getElem? _
    rw [hl]
    simp only [List.length_cons, Nat.succ_pos, gt_iff_lt, if_true, Nat.add_sub_cancel]
    cases hx : (x :: xs)[xs.length]? with
    | none =>
      have := List.getElem?_eq_none_iff.1 hx
      simp at this
    | some c => rfl

theorem bugSetLast_inSync_of_nil (b : Bug) (h : b.Last = none) : (Bug.setLast b).InSync := by
  rw [bugSetLast_def]
  unfold Bug.InSync
  cases hc : b.Changes.getLast? with
  | none => simp [h, hc]
  | some c => simp [hc]

theorem bugSetLast_of_inSync (b : Bug) (h : b.InSync) : Bug.setLast b = b := by
  unfold Bug.InSync at h
  rw [bugSetLast_def]
  cases hc : b.Changes.getLast? with
  | none => rfl
  | some c =>
    rw [hc] at h
    cases b
    simp_all

theorem bugSetLast_last (b : Bug) (h : b.Changes ≠ []) :
    (Bug.setLast b).Last = (Bug.setLast b).Changes.getLast? := by
  rw [bugSetLast_def]
  cases hc : b.Changes.getLast? with
  | none => exact absurd (List.getLast?_eq_none_iff.1 hc) h
  | some c => simp [hc]

theorem bugSetLast_changes (b : Bug) : (Bug.setLast b).Changes = b.Changes := by
  rw [bugSetLast_def]
  cases b.Changes.getLast? <;> rfl

theorem bugSetLast_toX (b : Bug) : (Bug.setLast b).toX = b.toX := by
  rw [bugSetLast_def]
  cases b.Changes.getLast? <;> rfl

theorem mem_dbSetLast (db : Db) (p : Part) (b : Bug) (hp : p ∈ (Db.setLast db).Parts)
    (hb : b ∈ p.Bugs) : ∃ q ∈ db.Parts, ∃ c ∈ q.Bugs, b = Bug.setLast c := by
  unfold Db.setLast at hp
  simp only [List.mem_map] at hp
  obtain ⟨q, hq, rfl⟩ := hp
  simp only [Part.setLast, List.mem_map] at hb
  obtain ⟨c, hc, rfl⟩ := hb
  exact ⟨q, hq, c, hc, rfl⟩

theorem dbSetLast_of_inSync (db : Db) (h : db.LastInSync) : Db.setLast db = db := by
  unfold Db.setLast
  have hparts : db.Parts.map (fun p => { p with Bugs := (Part.setLast p).Bugs }) = db.Parts := by
    conv_rhs => rw [← List.map_id db.Parts]
    apply List.map_congr_left
    intro p hp
    have hbugs : p.Bugs.map Bug.setLast = p.Bugs := by
      conv_rhs => rw [← List.map_id p.Bugs]
      apply List.map_congr_left
      intro b hb
      exact bugSetLast_of_inSync b (h p hp b hb)
    cases p
    simp_all [Part.setLast]
  rw [hparts]

theorem dbSetLast_toX (db : Db) : (Db.setLast db).toX = db.toX := by
  unfold Db.setLast Db.toX
  simp only [List.map_map]
  congr 1
  apply List.map_congr_left
  intro p _
  simp only [Function.comp, Part.toX, Part.setLast, List.map_map]
  congr 1
  apply List.map_congr_left
  intro b _
  exact bugSetLast_toX b

theorem LastInSync_modifyBug (db : Db) (ptr : BugPtr) (f : Bug → Bug) (h : db.LastInSync)
    (hf : ∀ b, b.InSync → (f b).InSync) : (db.modifyBug ptr f).LastInSync := by
  intro p hp b hb
  unfold Db.modifyBug at hp
  rcases mem_modifyAt _ _ _ _ hp with hp1 | ⟨q, hq, rfl⟩
  · exact h p hp1 b hb
  · have hqm : q ∈ db.Parts := List.getElem?_mem hq
    rcases mem_modifyAt _ _ _ _ hb with hb1 | ⟨c, hc, rfl⟩
    · exact h q hqm b hb1
    · exact hf c (h q hqm c (List.getElem?_mem hc))

theorem load_inSync (env : Env) (disk : Disk) (db : Db) (h : Db.load env disk = some db) :
    db.LastInSync := by
  unfold Db.load at h
  cases hc : disk.config with
  | none => simp [hc] at h
  | some bytes =>
    simp only [hc, Option.some.injEq] at h
    subst h
    intro p hp b hb
    obtain ⟨q, hq, c, hc1, rfl⟩ := mem_dbSetLast _ p b hp hb
    apply bugSetLast_inSync_of_nil
    simp only [XDb.toDb, List.mem_map] at hq
    obtain ⟨xq, _, rfl⟩ := hq
    simp only [XPart.toPart, List.mem_map] at hc1
    obtain ⟨xc, _, rfl⟩ := hc1
    rfl

/-- Every Document with its last-change references in sync is one that `load` returns: from
a file that the decoder reads as its persisted fields. -/
theorem inSync_loadable (db : Db) (h : db.LastInSync) :
    Db.load { envOk with unmarshal := fun _ => (db.toX, true) } diskCore = some db := by
  have hb : ∀ b : Bug, b.InSync → Bug.setLast b.toX.toBug = b := by
    intro b hs
    unfold Bug.InSync at hs
    rw [bugSetLast_def]
    cases b with
    | mk i sub chs last =>
      simp only [Bug.toX, XBug.toBug] at hs ⊢
      cases hc : chs.getLast? with
      | none =>
        rw [hc] at hs
        simp [hs]
      | some c =>
        rw [hc] at hs
        simp [hs]
  have hpart : ∀ p : Part, (∀ b ∈ p.Bugs, b.InSync) →
      ({ p.toX.toPart with Bugs := (Part.setLast p.toX.toPart).Bugs } : Part) = p := by
    intro p hp
    have hbugs : ((p.Bugs.map Bug.toX).map XBug.toBug).map Bug.setLast = p.Bugs := by
      simp only [List.map_map]
      conv_rhs => rw [← List.map_id p.Bugs]
      apply List.map_congr_left
      intro b hbm
      exact hb b (hp b hbm)
    cases p
    simp_all [Part.toX, XPart.toPart, Part.setLast]
  have hparts : ((db.Parts.map Part.toX).map XPart.toPart).map
      (fun p => ({ p with Bugs := (Part.setLast p).Bugs } : Part)) = db.Parts := by
    simp only [List.map_map]
    conv_rhs => rw [← List.map_id db.Parts]
    apply List.map_congr_left
    intro p hp
    exact hpart p (h p hp)
  cases db with
  | mk n us ps =>
    simp only [Db.load, diskCore, Db.setLast, Db.toX]
    show some (⟨n, us, _⟩ : Db) = some ⟨n, us, ps⟩
    congr 2

/-! ### `setLast` on the heap -/

theorem bugSetLast_idem (b : Bug) : Bug.setLast (Bug.setLast b) = Bug.setLast b := by
  rw [bugSetLast_def b]
  cases hc : b.Changes.getLast? with
  | none =>
    simp only []
    rw [bugSetLast_def b, hc]
  | some c =>
    simp only []
    rw [bugSetLast_def]
    simp only [hc]

theorem setLastLoop_getElem? (p : PartVal) (n i : Nat) (h : Heap) (a j : Nat) :
    (PartVal.setLastLoop p n i h a)[j]? =
      if a = p.Bugs.addr ∧ i ≤ j ∧ j < i + n then ((h a)[j]?).map Bug.setLast
      else (h a)[j]? := by
  induction n generalizing i h with
  | zero =>
    have hf : ¬ (a = p.Bugs.addr ∧ i ≤ j ∧ j < i + 0) := by omega
    simp only [PartVal.setLastLoop, hf, if_false]
  | succ n ih =>
    simp only [PartVal.setLastLoop]
    rw [ih (i + 1) (setLastAt h p.Bugs i)]
    unfold setLastAt
    by_cases ha : a = p.Bugs.addr
    · simp only [ha, if_true, true_and]
      by_cases hji : j = i
      · subst hji
        have h1 : ¬ (j + 1 ≤ j ∧ j < j + 1 + n) := by omega
        have h2 : j ≤ j ∧ j < j + (n + 1) := by omega
        simp only [h1, h2, if_false, and_self, if_true, getElem?_modifyAt_eq]
      · rw [getElem?_modifyAt_ne _ _ _ _ hji]
        by_cases hc : i + 1 ≤ j ∧ j < i + 1 + n
        · have h2 : i ≤ j ∧ j < i + (n + 1) := by omega
          simp only [hc, h2, and_self, if_true]
        · have h2 : ¬ (i ≤ j ∧ j < i + (n + 1)) := by omega
          simp only [hc, h2, if_false]
    · simp only [ha, false_and, if_false]

theorem partValSetLast_getElem? (p : PartVal) (h : Heap) (a j : Nat) :
    (PartVal.setLast p h a)[j]? =
      if a = p.Bugs.addr ∧ j < p.Bugs.len then ((h a)[j]?).map Bug.setLast else (h a)[j]? := by
  unfold PartVal.setLast
  rw [setLastLoop_getElem?]
  by_cases hc : a = p.Bugs.addr ∧ j < p.Bugs.len
  · have h2 : a = p.Bugs.addr ∧ 0 ≤ j ∧ j < 0 + p.Bugs.len := by omega
    simp only [hc, h2, and_self, if_true]
  · have h2 : ¬ (a = p.Bugs.addr ∧ 0 ≤ j ∧ j < 0 + p.Bugs.len) := by omega
    simp only [hc, h2, if_false]

/-- After `db.setLast()` every heap cell that lies inside the slice of some Part holds
`setLast` of what it held, and every other cell is untouched. -/
theorem setLastHeap_getElem? (parts : List PartVal) (h : Heap) (a j : Nat) :
    ((∃ p ∈ parts, a = p.Bugs.addr ∧ j < p.Bugs.len) →
      (setLastHeap parts h a)[j]? = ((h a)[j]?).map Bug.setLast) ∧
    ((¬ ∃ p ∈ parts, a = p.Bugs.addr ∧ j < p.Bugs.len) →
      (setLastHeap parts h a)[j]? = (h a)[j]?) := by
  induction parts generalizing h with
  | nil =>
    constructor
    · rintro ⟨p, hp, _⟩
      cases hp
    · intro _
      rfl
  | cons p ps ih =>
    have hstep : setLastHeap (p :: ps) h = setLastHeap ps (PartVal.setLast p h) := rfl
    rw [hstep]
    obtain ⟨ih1, ih2⟩ := ih (PartVal.setLast p h)
    have hp := partValSetLast_getElem? p h a j
    have hidem : ∀ o : Option Bug, (o.map Bug.setLast).map Bug.setLast = o.map Bug.setLast := by
      intro o
      cases o with
      | none => rfl
      | some b => simp [bugSetLast_idem]
    by_cases hps : ∃ q ∈ ps, a = q.Bugs.addr ∧ j < q.Bugs.len
    · have hcov : ∃ q ∈ p :: ps, a = q.Bugs.addr ∧ j < q.Bugs.len := by
        obtain ⟨q, hq, hqa⟩ := hps
        exact ⟨q, List.mem_cons_of_mem _ hq, hqa⟩
      refine ⟨fun _ => ?_, fun hn => absurd hcov hn⟩
      rw [ih1 hps, hp]
      split
      · exact hidem _
      · rfl
    · by_cases hc : a = p.Bugs.addr ∧ j < p.Bugs.len
      · have hcov : ∃ q ∈ p :: ps, a = q.Bugs.addr ∧ j < q.Bugs.len :=
          ⟨p, List.mem_cons_self _ _, hc⟩
        refine ⟨fun _ => ?_, fun hn => absurd hcov hn⟩
        rw [ih2 hps, hp]
        simp only [hc, and_self, if_true]
      · have hncov : ¬ ∃ q ∈ p :: ps, a = q.Bugs.addr ∧ j < q.Bugs.len := by
          rintro ⟨q, hq, hqa⟩
          rcases List.mem_cons.1 hq with rfl | hq1
          · exact hc hqa
          · exact hps ⟨q, hq1, hqa⟩
        refine ⟨fun hy => absurd hy hncov, fun _ => ?_⟩
        rw [ih2 hps, hp]
        simp only [hc, if_false]

/-- Reading the Parts out of the heap after `db.setLast()` gives `Part.setLast` of what one
read before: the writes made through the by-value copies are writes to the stored Bugs. -/
theorem setLastHeap_read (parts : List PartVal) (h : Heap) :
    parts.map (PartVal.read (setLastHeap parts h)) =
      (parts.map (PartVal.read h)).map Part.setLast := by
  rw [List.map_map]
  apply List.map_congr_left
  intro p hp
  simp only [Function.comp, PartVal.read, Part.setLast, Part.mk.injEq, true_and]
  apply List.ext_getElem?
  intro j
  rw [List.getElem?_map, List.getElem?_take, List.getElem?_take]
  by_cases hj : j < p.Bugs.len
  · simp only [hj, if_true]
    exact (setLastHeap_getElem? parts h p.Bugs.addr j).1 ⟨p, hp, rfl, hj⟩
  · simp only [hj, if_false, Option.map_none']

/-! ### What each handler does to the Document -/

theorem handlerRoot_st (env : Env) (st : State) (r : Request) :
    (handlerRoot env st r).st = st := by
  unfold handlerRoot
  cases loadTemplate env "root" with
  | none => rfl
  | some tmpl =>
    simp only []
    cases env.execute tmpl (.root st.db) <;> rfl

theorem handlerBug_st (env : Env) (st : State) (r : Request) :
    (handlerBug env st r).st = st := by
  unfold handlerBug
  simp only []
  split
  · rfl
  · split
    · rfl
    · split
      · rfl
      · split
        · rfl
        · split <;> rfl

/-- The three Documents `handlerChange` can leave: the one it found, that one with the
subject of the found Bug overwritten (a panic on the status), or that one with the subject
overwritten and a Change appended. -/
theorem handlerChange_db_cases (env : Env) (st : State) (r : Request) :
    (handlerChange env st r).st.db = st.db ∨
    (∃ ptr, (handlerChange env st r).st.db =
      st.db.modifyBug ptr (fun b => { b with Subject := FormValue r "subject" })) ∨
    (∃ ptr c, (handlerChange env st r).st.db =
      st.db.modifyBug ptr (fun b => Bug.setLast
        { b with Subject := FormValue r "subject", Changes := b.Changes ++ [c] })) := by
  unfold handlerChange
  simp only []
  split
  · exact Or.inl rfl
  · split
    · exact Or.inl rfl
    · rename_i id _
      unfold handlerChange1
      cases hfind : findBug st.db id with
      | none => exact Or.inl rfl
      | some ptr =>
        simp only []
        by_cases hs : FormValue r "subject" = ""
        · left
          simp only [hs, if_true]
        · simp only [hs, if_false]
          cases hst : Atoi (FormValue r "status") with
          | none => exact Or.inr (Or.inl ⟨ptr, rfl⟩)
          | some status =>
            refine Or.inr (Or.inr ⟨ptr, ⟨env.now, FormValue r "who", status,
              FormValue r "comment"⟩, ?_⟩)
            simp only []
            rw [← modifyBug_modifyBug st.db ptr
                (fun b => { b with Subject := FormValue r "subject", Changes := b.Changes ++
                  [⟨env.now, FormValue r "who", status, FormValue r "comment"⟩] }) Bug.setLast,
              ← modifyBug_modifyBug st.db ptr
                (fun b => { b with Subject := FormValue r "subject" })
                (fun b => { b with Changes := b.Changes ++
                  [⟨env.now, FormValue r "who", status, FormValue r "comment"⟩] })]
            cases Db.save env _ st.disk <;> rfl

/-- The three Documents `handlerNewBug` can leave: the one it found, that one with the
counter advanced (the nil Part), or that one with the counter advanced, the new Bug appended
to the Part found and `setLast` run over it. -/
theorem handlerNewBug_db_cases (env : Env) (st : State) (r : Request) :
    (handlerNewBug env st r).st.db = st.db ∨
    (handlerNewBug env st r).st.db = { st.db with NextId := wrapInt (st.db.NextId + 1) } ∨
    (∃ i, (handlerNewBug env st r).st.db =
      Db.setLast (Db.modifyPart { st.db with NextId := wrapInt (st.db.NextId + 1) } i
        (fun q => { q with Bugs := q.Bugs ++
          [⟨st.db.NextId, FormValue r "subject", [], none⟩] }))) := by
  unfold handlerNewBug
  simp only []
  split
  · exact Or.inl rfl
  · split
    · exact Or.inl rfl
    · split
      · exact Or.inr (Or.inl rfl)
      · rename_i i _
        exact Or.inr (Or.inr ⟨i, rfl⟩)

/-! ### The counter -/

theorem wrapInt_succ (x : Int) (hlo : minInt ≤ x) (hhi : x < maxInt) : wrapInt (x + 1) = x + 1 := by
  unfold wrapInt
  unfold minInt at hlo ⊢
  unfold maxInt at hhi
  norm_num at hlo hhi ⊢
  omega

theorem wrapInt_maxInt : wrapInt (maxInt + 1) = minInt := by decide

/-! ### Preservation of the last-change references -/

theorem handlerChange_inSync (env : Env) (st : State) (r : Request) (h : st.db.LastInSync) :
    (handlerChange env st r).st.db.LastInSync := by
  rcases handlerChange_db_cases env st r with h0 | ⟨ptr, h1⟩ | ⟨ptr, c, h2⟩
  · rw [h0]
    exact h
  · rw [h1]
    exact LastInSync_modifyBug _ _ _ h (fun b hb => hb)
  · rw [h2]
    apply LastInSync_modifyBug _ _ _ h
    intro b _
    exact bugSetLast_last _ (by simp)

theorem handlerNewBug_inSync (env : Env) (st : State) (r : Request) (h : st.db.LastInSync) :
    (handlerNewBug env st r).st.db.LastInSync := by
  rcases handlerNewBug_db_cases env st r with h0 | h1 | ⟨i, h2⟩
  · rw [h0]
    exact h
  · rw [h1]
    exact h
  · rw [h2]
    intro p hp b hb
    obtain ⟨q, hq, c, hc, rfl⟩ := mem_dbSetLast _ p b hp hb
    unfold Db.modifyPart at hq
    rcases mem_modifyAt _ _ _ _ hq with hq1 | ⟨q0, hq0, rfl⟩
    · have hcs : c.InSync := h q hq1 c hc
      rw [bugSetLast_of_inSync c hcs]
      exact hcs
    · simp only [List.mem_append, List.mem_singleton] at hc
      rcases hc with hc | rfl
      · have hcs : c.InSync := h q0 (List.getElem?_mem hq0) c hc
        rw [bugSetLast_of_inSync c hcs]
        exact hcs
      · exact bugSetLast_inSync_of_nil _ rfl

theorem serve_inSync (ep : Endpoint) (env : Env) (st : State) (r : Request)
    (h : st.db.LastInSync) : (serve ep env st r).st.db.LastInSync := by
  cases ep with
  | root =>
    simp only [serve, handlerRoot_st]
    exact h
  | bug =>
    simp only [serve, handlerBug_st]
    exact h
  | change => exact handlerChange_inSync env st r h
  | newBug => exact handlerNewBug_inSync env st r h

/-! ### `handlerNewBug` on a Part that exists and on one that does not -/

theorem Atoi_ne_empty (s : String) (v : Int) (h : Atoi s = some v) : s ≠ "" := by
  intro he
  rw [he, Atoi_empty] at h
  cases h

theorem findPart_isSome_of_mem (db : Db) (id : Int) (h : ∃ p ∈ db.Parts, p.Id = id) :
    ∃ i, findPart db id = some i := by
  obtain ⟨p, hp, hid⟩ := h
  exact firstIndex_isSome_of_mem (fun q : Part => q.Id = id) db.Parts p hp hid

theorem handlerNewBug_found (env : Env) (st : State) (r : Request) (id : Int) (i : Nat)
    (hid : Atoi (FormValue r "partId") = some id) (hfind : findPart st.db id = some i) :
    handlerNewBug env st r =
      ⟨{ st with db := Db.setLast (Db.modifyPart
          { st.db with NextId := wrapInt (st.db.NextId + 1) } i
          (fun q => { q with Bugs := q.Bugs ++
            [⟨st.db.NextId, FormValue r "subject", [], none⟩] })) },
        .returned (.redirect ("/bug?id=" ++ Itoa st.db.NextId) StatusSeeOther)⟩ := by
  unfold handlerNewBug
  simp only [Atoi_ne_empty _ _ hid, if_false, hid, hfind]

theorem handlerNewBug_nil (env : Env) (st : State) (r : Request) (id : Int)
    (hid : Atoi (FormValue r "partId") = some id) (hfind : findPart st.db id = none) :
    handlerNewBug env st r =
      ⟨{ st with db := { st.db with NextId := wrapInt (st.db.NextId + 1) } }, .panicked⟩ := by
  unfold handlerNewBug
  simp only [Atoi_ne_empty _ _ hid, if_false, hid, hfind]

/-! ### Preservation of the ids -/

theorem allBugs_map_modifyBug {β : Type} (db : Db) (ptr : BugPtr) (f : Bug → Bug) (g : Bug → β)
    (hf : ∀ b, g (f b) = g b) : (db.modifyBug ptr f).allBugs.map g = db.allBugs.map g := by
  have hin : ∀ (l : List Bug), (modifyAt f ptr.bug l).map g = l.map g :=
    fun l => map_modifyAt_of_eq f g ptr.bug l hf
  have hout : ∀ (i : Nat) (l : List Part),
      ((modifyAt (fun p : Part => { p with Bugs := modifyAt f ptr.bug p.Bugs }) i l).flatMap
        Part.Bugs).map g = (l.flatMap Part.Bugs).map g := by
    intro i l
    induction l generalizing i with
    | nil => simp [modifyAt]
    | cons x xs ih =>
      cases i with
      | zero => simp [modifyAt, hin]
      | succ i =>
        have h1 := ih i
        simp only [modifyAt, List.flatMap_cons, List.map_append] at h1 ⊢
        rw [h1]
  exact hout ptr.part db.Parts

theorem allBugs_map_setLast (db : Db) :
    (Db.setLast db).allBugs.map Bug.Id = db.allBugs.map Bug.Id := by
  have hb : ∀ b : Bug, (Bug.setLast b).Id = b.Id := by
    intro b
    rw [bugSetLast_def]
    cases b.Changes.getLast? <;> rfl
  have hparts : ∀ l : List Part,
      ((l.map (fun p => { p with Bugs := (Part.setLast p).Bugs })).flatMap Part.Bugs).map Bug.Id =
        (l.flatMap Part.Bugs).map Bug.Id := by
    intro l
    induction l with
    | nil => rfl
    | cons x xs ih =>
      simp only [List.map_cons, List.flatMap_cons, List.map_append, ih, Part.setLast,
        List.map_map]
      congr 1
      apply List.map_congr_left
      intro b _
      exact hb b
  exact hparts db.Parts

theorem allBugs_modifyAt_append_perm (nb : Bug) (i : Nat) (l : List Part) :
    List.Perm
      ((modifyAt (fun q : Part => { q with Bugs := q.Bugs ++ [nb] }) i l).flatMap Part.Bugs)
      (l.flatMap Part.Bugs ++ (if i < l.length then [nb] else [])) := by
  induction l generalizing i with
  | nil => simp [modifyAt]
  | cons x xs ih =>
    cases i with
    | zero =>
      simp only [modifyAt, List.flatMap_cons, List.length_cons, Nat.zero_lt_succ, if_true,
        List.append_assoc]
      exact List.Perm.append_left _ List.perm_append_comm
    | succ i =>
      have h1 := ih i
      simp only [modifyAt, List.flatMap_cons, List.length_cons, Nat.succ_lt_succ_iff,
        List.append_assoc]
      exact List.Perm.append_left _ h1

theorem IdInv_of_same_ids (db db1 : Db) (h : IdInv db)
    (hids : db1.allBugs.map Bug.Id = db.allBugs.map Bug.Id) (hn : db.NextId ≤ db1.NextId) :
    IdInv db1 := by
  obtain ⟨hnd, hlt⟩ := h
  refine ⟨by rw [hids]; exact hnd, ?_⟩
  intro b hb
  have hm : b.Id ∈ db1.allBugs.map Bug.Id := List.mem_map_of_mem _ hb
  rw [hids, List.mem_map] at hm
  obtain ⟨c, hc, hcid⟩ := hm
  have := hlt c hc
  omega

theorem handlerChange_IdInv (env : Env) (st : State) (r : Request) (h : IdInv st.db) :
    IdInv (handlerChange env st r).st.db := by
  rcases handlerChange_db_cases env st r with h0 | ⟨ptr, h1⟩ | ⟨ptr, c, h2⟩
  · rw [h0]
    exact h
  · rw [h1]
    exact IdInv_of_same_ids st.db _ h (allBugs_map_modifyBug _ _ _ _ (fun _ => rfl))
      (Int.le_refl _)
  · rw [h2]
    refine IdInv_of_same_ids st.db _ h (allBugs_map_modifyBug _ _ _ _ ?_) (Int.le_refl _)
    intro b
    rw [bugSetLast_def]
    simp only []
    split <;> rfl

theorem handlerNewBug_IdInv (env : Env) (st : State) (r : Request) (h : IdInv st.db)
    (hlo : minInt ≤ st.db.NextId) (hhi : st.db.NextId < maxInt) :
    IdInv (handlerNewBug env st r).st.db := by
  have hw := wrapInt_succ _ hlo hhi
  rcases handlerNewBug_db_cases env st r with h0 | h1 | ⟨i, h2⟩
  · rw [h0]
    exact h
  · rw [h1]
    refine IdInv_of_same_ids st.db _ h rfl ?_
    simp only [hw]
    omega
  · rw [h2]
    obtain ⟨hnd, hlt⟩ := h
    have hperm := allBugs_modifyAt_append_perm
      (⟨st.db.NextId, FormValue r "subject", [], none⟩ : Bug) i st.db.Parts
    have hfresh : st.db.NextId ∉ st.db.allBugs.map Bug.Id := by
      intro hm
      rw [List.mem_map] at hm
      obtain ⟨c, hc, hcid⟩ := hm
      have := hlt c hc
      omega
    have hids : List.Perm
        ((Db.setLast (Db.modifyPart { st.db with NextId := wrapInt (st.db.NextId + 1) } i
          (fun q => { q with Bugs := q.Bugs ++
            [⟨st.db.NextId, FormValue r "subject", [], none⟩] }))).allBugs.map Bug.Id)
        (st.db.allBugs.map Bug.Id ++
          (if i < st.db.Parts.length then [st.db.NextId] else [])) := by
      rw [allBugs_map_setLast]
      have hm := hperm.map Bug.Id
      simp only [List.map_append] at hm
      split at hm
      · rename_i hi
        simp only [hi, if_true]
        exact hm
      · rename_i hi
        simp only [hi, if_false]
        exact hm
    constructor
    · rw [hids.nodup_iff]
      split
      · rw [List.nodup_append]
        refine ⟨hnd, List.nodup_singleton _, ?_⟩
        intro x hx hx1
        rw [List.mem_singleton] at hx1
        subst hx1
        exact hfresh hx
      · simpa using hnd
    · intro b hb
      have hm : b.Id ∈ (Db.setLast (Db.modifyPart
          { st.db with NextId := wrapInt (st.db.NextId + 1) } i
          (fun q => { q with Bugs := q.Bugs ++
            [⟨st.db.NextId, FormValue r "subject", [], none⟩] }))).allBugs.map Bug.Id :=
        List.mem_map_of_mem _ hb
      rw [hids.mem_iff, List.mem_append] at hm
      have hnext : (Db.setLast (Db.modifyPart
          { st.db with NextId := wrapInt (st.db.NextId + 1) } i
          (fun q => { q with Bugs := q.Bugs ++
            [⟨st.db.NextId, FormValue r "subject", [], none⟩] }))).NextId =
          st.db.NextId + 1 := hw
      rw [hnext]
      rcases hm with hm | hm
      · rw [List.mem_map] at hm
        obtain ⟨c, hc, hcid⟩ := hm
        have := hlt c hc
        omega
      · split at hm
        · rw [List.mem_singleton] at hm
          omega
        · simp at hm

/-! ## C5: `findBug` -/

/-- C5. For every Document and every id, `findBug` returns nil exactly when no Bug of any
Part has the id; otherwise the pointer it returns refers to a Bug with the requested id that
is the first one with that id in traversal order (no Bug at an earlier position, by Part and
then by index in the Part, has the id; it is what a search of the flattened Bug list finds),
and when ids are unique every Bug with that id is that Bug. -/
theorem findBug_lookup_correct (db : Db) (id : Int) :
    (findBug db id = none ↔ ∀ p ∈ db.Parts, ∀ b ∈ p.Bugs, b.Id ≠ id) ∧
    (∀ ptr, findBug db id = some ptr →
      ∃ b, db.bugAt ptr = some b ∧ b.Id = id ∧
        db.allBugs.find? (fun x => decide (x.Id = id)) = some b ∧
        (∀ q c, db.bugAt q = some c → c.Id = id →
          ptr.part < q.part ∨ (ptr.part = q.part ∧ ptr.bug ≤ q.bug)) ∧
        ((db.allBugs.map Bug.Id).Nodup → ∀ c ∈ db.allBugs, c.Id = id → c = b)) := by
  refine ⟨findBugFrom_eq_none id db.Parts 0, ?_⟩
  intro ptr h
  obtain ⟨i, p, b, hpart, hp, hb, hid, hparts, hbugs, hfind⟩ :=
    findBugFrom_eq_some id db.Parts 0 ptr h
  have hi : ptr.part = i := by omega
  subst hi
  refine ⟨b, ?_, hid, hfind, ?_, ?_⟩
  · simp [Db.bugAt, hp, hb]
  · intro q c hq hc
    obtain ⟨p1, hp1, hc1⟩ := bugAt_mem db q c hq
    rcases Nat.lt_trichotomy ptr.part q.part with hlt | heq | hgt
    · exact Or.inl hlt
    · right
      refine ⟨heq, ?_⟩
      rw [← heq, hp] at hp1
      cases hp1
      by_contra hcon
      exact hbugs q.bug (by omega) c hc1 hc
    · exact absurd hc (hparts q.part hgt p1 hp1 c (List.getElem?_mem hc1))
  · intro hnd c hc hcid
    have hbmem : b ∈ db.allBugs := List.mem_of_find?_eq_some hfind
    exact List.inj_on_of_nodup_map hnd hc hbmem (by rw [hcid, hid])

/-! ## C2: append change -/

/-- C2. For every Document and every append-change request whose id parses as an integer that
some Bug has, whose subject is not empty and whose status parses as an integer: the Bug that
`findBug` returns has afterwards its old Changes followed by one new Change with the request's
status, who and comment, and the request's subject; every other Bug, every Part's name and id,
the Users and the next-id counter are as before. -/
theorem handlerChange_appends (env : Env) (st : State) (r : Request) (id status : Int)
    (hid : Atoi (FormValue r "id") = some id)
    (hbug : ∃ b ∈ st.db.allBugs, b.Id = id)
    (hsubj : FormValue r "subject" ≠ "")
    (hstatus : Atoi (FormValue r "status") = some status) :
    ∃ ptr b, findBug st.db id = some ptr ∧ st.db.bugAt ptr = some b ∧ b.Id = id ∧
      (handlerChange env st r).st.db.bugAt ptr =
        some { Id := b.Id
               Subject := FormValue r "subject"
               Changes := b.Changes ++
                 [⟨env.now, FormValue r "who", status, FormValue r "comment"⟩]
               Last := some ⟨env.now, FormValue r "who", status, FormValue r "comment"⟩ } ∧
      (∀ q, q ≠ ptr → (handlerChange env st r).st.db.bugAt q = st.db.bugAt q) ∧
      (handlerChange env st r).st.db.Parts.map (fun p => (p.Name, p.Id)) =
        st.db.Parts.map (fun p => (p.Name, p.Id)) ∧
      (handlerChange env st r).st.db.Users = st.db.Users ∧
      (handlerChange env st r).st.db.NextId = st.db.NextId := by
  obtain ⟨ptr, hfind⟩ := findBug_isSome_of_mem st.db id hbug
  obtain ⟨b, hb, hbid⟩ := findBug_some_bugAt st.db id ptr hfind
  have hdb := handlerChange_db env st r id status ptr hid hfind hsubj hstatus
  refine ⟨ptr, b, hfind, hb, hbid, ?_, ?_, ?_, ?_, ?_⟩
  · rw [hdb, bugAt_modifyBug_eq, bugAt_modifyBug_eq, bugAt_modifyBug_eq, hb]
    simp [Bug.setLast]
  · intro q hq
    rw [hdb, bugAt_modifyBug_ne _ _ _ _ hq, bugAt_modifyBug_ne _ _ _ _ hq,
      bugAt_modifyBug_ne _ _ _ _ hq]
  · rw [hdb, modifyBug_headers, modifyBug_headers, modifyBug_headers]
  · rw [hdb]
    rfl
  · rw [hdb]
    rfl

/-- C2, scenario 2: Bug 0 with no changes, `subject=Crash fixed&status=2&who=alice&comment=Patched`. -/
theorem handlerChange_appends_witness :
    Atoi (FormValue reqChange "id") = some 0 ∧
    (∃ b ∈ dbOneBug.allBugs, b.Id = 0) ∧
    FormValue reqChange "subject" ≠ "" ∧
    Atoi (FormValue reqChange "status") = some 2 ∧
    ∃ ptr b, findBug dbOneBug 0 = some ptr ∧ dbOneBug.bugAt ptr = some b ∧ b.Id = 0 ∧
      (handlerChange envOk ⟨dbOneBug, diskCore⟩ reqChange).st.db.bugAt ptr =
        some { Id := b.Id
               Subject := FormValue reqChange "subject"
               Changes := b.Changes ++
                 [⟨envOk.now, FormValue reqChange "who", 2, FormValue reqChange "comment"⟩]
               Last := some ⟨envOk.now, FormValue reqChange "who", 2,
                 FormValue reqChange "comment"⟩ } ∧
      (∀ q, q ≠ ptr →
        (handlerChange envOk ⟨dbOneBug, diskCore⟩ reqChange).st.db.bugAt q = dbOneBug.bugAt q) ∧
      (handlerChange envOk ⟨dbOneBug, diskCore⟩ reqChange).st.db.Parts.map
          (fun p => (p.Name, p.Id)) = dbOneBug.Parts.map (fun p => (p.Name, p.Id)) ∧
      (handlerChange envOk ⟨dbOneBug, diskCore⟩ reqChange).st.db.Users = dbOneBug.Users ∧
      (handlerChange envOk ⟨dbOneBug, diskCore⟩ reqChange).st.db.NextId = dbOneBug.NextId :=
  have h1 : Atoi (FormValue reqChange "id") = some 0 := by decide
  have h2 : ∃ b ∈ dbOneBug.allBugs, b.Id = 0 :=
    ⟨⟨0, "Crash on startup", [], none⟩, by decide, by decide⟩
  have h3 : FormValue reqChange "subject" ≠ "" := by decide
  have h4 : Atoi (FormValue reqChange "status") = some 2 := by decide
  ⟨h1, h2, h3, h4, handlerChange_appends envOk ⟨dbOneBug, diskCore⟩ reqChange 0 2 h1 h2 h3 h4⟩

/-! ## C4: the last-change reference -/

/-- C4. In every state the program can reach (the Document right after `load`, and the
Document after any request served from such a state, append change and create bug included)
every Bug of every Part has `Last` equal to the last element of its Changes, nil when there is
none.  And `Db.setLast`, although it ranges over the Parts by value, updates the stored Bugs:
run over the heap that holds the backing arrays, it leaves the Document that `Db.setLast`
describes, which is `Part.setLast` on every stored Part; every Bug with a Change then has
`Last` at its last Change, and nothing that is persisted has changed. -/
theorem last_change_in_sync :
    (∀ st, Reachable st → st.db.LastInSync) ∧
    (∀ (n : Int) (us : List User) (parts : List PartVal) (h : Heap),
      parts.map (PartVal.read (setLastHeap parts h)) =
        (Db.setLast ⟨n, us, parts.map (PartVal.read h)⟩).Parts) ∧
    (∀ db : Db,
      (Db.setLast db).Parts = db.Parts.map Part.setLast ∧
      (∀ p ∈ (Db.setLast db).Parts, ∀ b ∈ p.Bugs, b.Changes ≠ [] →
        b.Last = b.Changes.getLast?) ∧
      (Db.setLast db).toX = db.toX) := by
  refine ⟨?_, ?_, ?_⟩
  · intro st hst
    induction hst with
    | load env disk db h => exact load_inSync env disk db h
    | step ep env st r _ ih => exact serve_inSync ep env st r ih
  · intro n us parts h
    rw [setLastHeap_read]
    rfl
  · intro db
    refine ⟨rfl, ?_, dbSetLast_toX db⟩
    intro p hp b hb hne
    obtain ⟨q, _, c, _, rfl⟩ := mem_dbSetLast db p b hp hb
    rw [bugSetLast_changes] at hne
    exact bugSetLast_last c hne

/-! ## C1: create bug -/

/-- C1, as the code has it.  For every Document whose last-change references are in sync and
whose next-id counter is a Go int below the largest one, and every create-bug request whose
partId parses as an integer that some Part has (every Document in sync is one that `load`
can return, `inSync_loadable`): with `i` the first Part with that id, the
counter afterwards is one greater, Part `i` is as before with one Bug appended to its Bugs (id
the counter before, the request's subject, no Changes, nil `Last`), every other Part and the
Users are as before, and the response is a 303 redirect to `/bug?id=` and the new id. -/
theorem handlerNewBug_creates (env : Env) (st : State) (r : Request) (id : Int)
    (hid : Atoi (FormValue r "partId") = some id)
    (hpart : ∃ p ∈ st.db.Parts, p.Id = id)
    (hsync : st.db.LastInSync)
    (hctr : minInt ≤ st.db.NextId ∧ st.db.NextId < maxInt) :
    ∃ (i : Nat) (p : Part), st.db.Parts[i]? = some p ∧ p.Id = id ∧
      (∀ j, j < i → ∀ q : Part, st.db.Parts[j]? = some q → q.Id ≠ id) ∧
      (handlerNewBug env st r).st.db.NextId = st.db.NextId + 1 ∧
      (handlerNewBug env st r).st.db.Parts[i]? =
        some { p with Bugs := p.Bugs ++ [⟨st.db.NextId, FormValue r "subject", [], none⟩] } ∧
      (∀ j, j ≠ i → (handlerNewBug env st r).st.db.Parts[j]? = st.db.Parts[j]?) ∧
      (handlerNewBug env st r).st.db.Users = st.db.Users ∧
      (handlerNewBug env st r).out =
        .returned (.redirect ("/bug?id=" ++ Itoa st.db.NextId) StatusSeeOther) := by
  obtain ⟨i, hfind⟩ := findPart_isSome_of_mem st.db id hpart
  obtain ⟨p, hp, hpid, hfirst⟩ := firstIndex_eq_some _ _ _ hfind
  have hres := handlerNewBug_found env st r id i hid hfind
  have hs : (Db.modifyPart { st.db with NextId := wrapInt (st.db.NextId + 1) } i
      (fun q => { q with Bugs := q.Bugs ++
        [⟨st.db.NextId, FormValue r "subject", [], none⟩] })).LastInSync := by
    intro q hq b hb
    unfold Db.modifyPart at hq
    rcases mem_modifyAt _ _ _ _ hq with hq1 | ⟨q0, hq0, rfl⟩
    · exact hsync q hq1 b hb
    · simp only [List.mem_append, List.mem_singleton] at hb
      rcases hb with hb | rfl
      · exact hsync q0 (List.getElem?_mem hq0) b hb
      · rfl
  rw [dbSetLast_of_inSync _ hs] at hres
  refine ⟨i, p, hp, hpid, hfirst, ?_, ?_, ?_, ?_, ?_⟩
  · rw [hres]
    exact wrapInt_succ _ hctr.1 hctr.2
  · rw [hres]
    simp only [Db.modifyPart, getElem?_modifyAt_eq, hp, Option.map_some']
  · intro j hj
    rw [hres]
    simp only [Db.modifyPart, getElem?_modifyAt_ne _ _ _ _ hj]
  · rw [hres]
    rfl
  · rw [hres]

/-- C1, scenario 1: next-id 0, one Part `core` with id 1, `partId=1`, `subject=Crash on
startup`. -/
theorem handlerNewBug_creates_witness :
    Atoi (FormValue reqNewBug "partId") = some 1 ∧
    (∃ p ∈ dbCore.Parts, p.Id = 1) ∧
    dbCore.LastInSync ∧
    (minInt ≤ dbCore.NextId ∧ dbCore.NextId < maxInt) ∧
    ∃ (i : Nat) (p : Part), dbCore.Parts[i]? = some p ∧ p.Id = 1 ∧
      (∀ j, j < i → ∀ q : Part, dbCore.Parts[j]? = some q → q.Id ≠ 1) ∧
      (handlerNewBug envOk ⟨dbCore, diskCore⟩ reqNewBug).st.db.NextId = dbCore.NextId + 1 ∧
      (handlerNewBug envOk ⟨dbCore, diskCore⟩ reqNewBug).st.db.Parts[i]? =
        some { p with Bugs := p.Bugs ++
          [⟨dbCore.NextId, FormValue reqNewBug "subject", [], none⟩] } ∧
      (∀ j, j ≠ i →
        (handlerNewBug envOk ⟨dbCore, diskCore⟩ reqNewBug).st.db.Parts[j]? = dbCore.Parts[j]?) ∧
      (handlerNewBug envOk ⟨dbCore, diskCore⟩ reqNewBug).st.db.Users = dbCore.Users ∧
      (handlerNewBug envOk ⟨dbCore, diskCore⟩ reqNewBug).out =
        .returned (.redirect ("/bug?id=" ++ Itoa dbCore.NextId) StatusSeeOther) :=
  have h1 : Atoi (FormValue reqNewBug "partId") = some 1 := by decide
  have h2 : ∃ p ∈ dbCore.Parts, p.Id = 1 := by decide
  have h3 : dbCore.LastInSync := by decide
  have h4 : minInt ≤ dbCore.NextId ∧ dbCore.NextId < maxInt := by decide
  ⟨h1, h2, h3, h4, handlerNewBug_creates envOk ⟨dbCore, diskCore⟩ reqNewBug 1 h1 h2 h3 h4⟩

/-- C1 fails as stated: with the counter at the largest Go int, a create-bug request for an
existing Part leaves the counter at the smallest int, not one greater. -/
theorem handlerNewBug_counter_not_one_greater :
    Atoi (FormValue reqNewBug "partId") = some 1 ∧
    (∃ p ∈ dbFull.Parts, p.Id = 1) ∧
    (handlerNewBug envOk ⟨dbFull, diskCore⟩ reqNewBug).st.db.NextId = -9223372036854775808 ∧
    ¬ (handlerNewBug envOk ⟨dbFull, diskCore⟩ reqNewBug).st.db.NextId = dbFull.NextId + 1 := by
  decide

/-! ## C10: create bug with an unknown Part -/

/-- C10, as the code has it.  For every Document and every create-bug request whose partId
parses as an integer that no Part has, the handler panics; at that point the Parts, the Users
and the files are as before and the counter has been advanced by `NextId++`: to one more when
it was a Go int below the largest one, to the smallest int when it was the largest. -/
theorem handlerNewBug_unknown_part (env : Env) (st : State) (r : Request) (id : Int)
    (hid : Atoi (FormValue r "partId") = some id)
    (hno : ∀ p ∈ st.db.Parts, p.Id ≠ id) :
    (handlerNewBug env st r).out = .panicked ∧
    (handlerNewBug env st r).st.db.Parts = st.db.Parts ∧
    (handlerNewBug env st r).st.db.Users = st.db.Users ∧
    (handlerNewBug env st r).st.disk = st.disk ∧
    (handlerNewBug env st r).st.db.NextId = wrapInt (st.db.NextId + 1) ∧
    (minInt ≤ st.db.NextId → st.db.NextId < maxInt →
      (handlerNewBug env st r).st.db.NextId = st.db.NextId + 1) ∧
    (st.db.NextId = maxInt → (handlerNewBug env st r).st.db.NextId = minInt) := by
  have hfind : findPart st.db id = none := (firstIndex_eq_none _ _).2 hno
  have hres := handlerNewBug_nil env st r id hid hfind
  rw [hres]
  refine ⟨rfl, rfl, rfl, rfl, rfl, ?_, ?_⟩
  · intro hlo hhi
    exact wrapInt_succ _ hlo hhi
  · intro hmax
    simp only [hmax]
    exact wrapInt_maxInt

/-- C10 at work: the Document of scenario 1 and `partId=2`. -/
theorem handlerNewBug_unknown_part_witness :
    Atoi (FormValue reqNewBugNoPart "partId") = some 2 ∧
    (∀ p ∈ dbCore.Parts, p.Id ≠ 2) ∧
    (handlerNewBug envOk ⟨dbCore, diskCore⟩ reqNewBugNoPart).out = .panicked ∧
    (handlerNewBug envOk ⟨dbCore, diskCore⟩ reqNewBugNoPart).st.db.Parts = dbCore.Parts ∧
    (handlerNewBug envOk ⟨dbCore, diskCore⟩ reqNewBugNoPart).st.db.Users = dbCore.Users ∧
    (handlerNewBug envOk ⟨dbCore, diskCore⟩ reqNewBugNoPart).st.disk = diskCore ∧
    (handlerNewBug envOk ⟨dbCore, diskCore⟩ reqNewBugNoPart).st.db.NextId =
      wrapInt (dbCore.NextId + 1) ∧
    (minInt ≤ dbCore.NextId → dbCore.NextId < maxInt →
      (handlerNewBug envOk ⟨dbCore, diskCore⟩ reqNewBugNoPart).st.db.NextId =
        dbCore.NextId + 1) ∧
    (dbCore.NextId = maxInt →
      (handlerNewBug envOk ⟨dbCore, diskCore⟩ reqNewBugNoPart).st.db.NextId = minInt) :=
  have h1 : Atoi (FormValue reqNewBugNoPart "partId") = some 2 := by decide
  have h2 : ∀ p ∈ dbCore.Parts, p.Id ≠ 2 := by decide
  ⟨h1, h2, handlerNewBug_unknown_part envOk ⟨dbCore, diskCore⟩ reqNewBugNoPart 2 h1 h2⟩

/-- C10 fails as stated: with the counter at the largest Go int and no Part with id 2, the
handler panics with the counter at the smallest int, not increased by one. -/
theorem handlerNewBug_unknown_part_counter_wraps :
    Atoi (FormValue reqNewBugNoPart "partId") = some 2 ∧
    (∀ p ∈ dbFull.Parts, p.Id ≠ 2) ∧
    (handlerNewBug envOk ⟨dbFull, diskCore⟩ reqNewBugNoPart).out = .panicked ∧
    (handlerNewBug envOk ⟨dbFull, diskCore⟩ reqNewBugNoPart).st.db.NextId =
      -9223372036854775808 ∧
    ¬ (handlerNewBug envOk ⟨dbFull, diskCore⟩ reqNewBugNoPart).st.db.NextId =
      dbFull.NextId + 1 := by
  decide

/-! ## C3: the id invariant -/

/-- C3, as the code has it.  The predicate "no two Bugs share an id and every id is below the
next-id counter" is kept by every request on every route, including the ones that panic part
way, from every Document satisfying it; for a create-bug request this is under the condition
that the counter is a Go int below the largest one. -/
theorem serve_preserves_IdInv (ep : Endpoint) (env : Env) (st : State) (r : Request)
    (hinv : IdInv st.db)
    (hctr : ep = .newBug → minInt ≤ st.db.NextId ∧ st.db.NextId < maxInt) :
    IdInv (serve ep env st r).st.db := by
  cases ep with
  | root =>
    simp only [serve, handlerRoot_st]
    exact hinv
  | bug =>
    simp only [serve, handlerBug_st]
    exact hinv
  | change => exact handlerChange_IdInv env st r hinv
  | newBug => exact handlerNewBug_IdInv env st r hinv (hctr rfl).1 (hctr rfl).2

/-- C3 at work: creating a second Bug in the Document of scenario 2. -/
theorem serve_preserves_IdInv_witness :
    IdInv dbOneBug ∧
    (Endpoint.newBug = .newBug → minInt ≤ dbOneBug.NextId ∧ dbOneBug.NextId < maxInt) ∧
    IdInv (serve .newBug envOk ⟨dbOneBug, diskCore⟩ reqNewBug).st.db :=
  have h1 : IdInv dbOneBug := by decide
  have h2 : Endpoint.newBug = .newBug → minInt ≤ dbOneBug.NextId ∧ dbOneBug.NextId < maxInt :=
    fun _ => by decide
  ⟨h1, h2, serve_preserves_IdInv .newBug envOk ⟨dbOneBug, diskCore⟩ reqNewBug h1 h2⟩

/-- C3 fails as stated: the Document with one empty Part and the counter at the largest Go
int satisfies the predicate, and after one create-bug request it holds a Bug whose id
(the largest int) is not below the counter (the smallest int). -/
theorem newBug_breaks_IdInv_at_maxInt :
    IdInv dbFull ∧ ¬ IdInv (serve .newBug envOk ⟨dbFull, diskCore⟩ reqNewBug).st.db := by
  decide

/-! ## C7: append change that changes nothing -/

/-- C7, as the code has it.  For every Document and every append-change request whose id
parses as an integer, if no Bug has that id or the subject is empty, the handler saves nothing
and leaves the Document as it was, and its response is the 303 redirect to `/bug?id=` and
the id as sent. -/
theorem handlerChange_noop_redirects (env : Env) (st : State) (r : Request) (id : Int)
    (hid : Atoi (FormValue r "id") = some id)
    (h : (∀ b ∈ st.db.allBugs, b.Id ≠ id) ∨ FormValue r "subject" = "") :
    (handlerChange env st r).out =
      .returned (.redirect ("/bug?id=" ++ FormValue r "id") StatusSeeOther) ∧
    (handlerChange env st r).st.disk = st.disk ∧
    (handlerChange env st r).st.db = st.db := by
  have hne := Atoi_ne_empty _ _ hid
  have h1 : handlerChange1 env st r id = .ok st := by
    unfold handlerChange1
    cases hfind : findBug st.db id with
    | none => rfl
    | some ptr =>
      rcases h with h | h
      · obtain ⟨b, hb, hbid⟩ := findBug_some_bugAt st.db id ptr hfind
        obtain ⟨p, hp, hbp⟩ := bugAt_mem st.db ptr b hb
        have hmem : b ∈ st.db.allBugs :=
          (mem_allBugs st.db b).2 ⟨p, List.getElem?_mem hp, List.getElem?_mem hbp⟩
        exact absurd hbid (h b hmem)
      · simp only [h, if_true]
  unfold handlerChange
  simp only [hne, if_false, hid, h1, and_self]

/-- C7 at work: `id=999` on the Document of scenario 2. -/
theorem handlerChange_noop_redirects_witness :
    Atoi (FormValue reqChangeNoBug "id") = some 999 ∧
    ((∀ b ∈ dbOneBug.allBugs, b.Id ≠ 999) ∨ FormValue reqChangeNoBug "subject" = "") ∧
    (handlerChange envOk ⟨dbOneBug, diskCore⟩ reqChangeNoBug).out =
      .returned (.redirect ("/bug?id=" ++ FormValue reqChangeNoBug "id") StatusSeeOther) ∧
    (handlerChange envOk ⟨dbOneBug, diskCore⟩ reqChangeNoBug).st.disk = diskCore ∧
    (handlerChange envOk ⟨dbOneBug, diskCore⟩ reqChangeNoBug).st.db = dbOneBug :=
  have h1 : Atoi (FormValue reqChangeNoBug "id") = some 999 := by decide
  have h2 : (∀ b ∈ dbOneBug.allBugs, b.Id ≠ 999) ∨ FormValue reqChangeNoBug "subject" = "" :=
    Or.inl (by decide)
  ⟨h1, h2, handlerChange_noop_redirects envOk ⟨dbOneBug, diskCore⟩ reqChangeNoBug 999 h1 h2⟩

/-- C7 fails as stated: `id=999` matches no Bug of the Document of scenario 2, and the
response is a redirect to `/bug?id=999`, not an empty response. -/
theorem handlerChange_unknown_bug_not_empty :
    Atoi (FormValue reqChangeNoBug "id") = some 999 ∧
    (∀ b ∈ dbOneBug.allBugs, b.Id ≠ 999) ∧
    (handlerChange envOk ⟨dbOneBug, diskCore⟩ reqChangeNoBug).out =
      .returned (.redirect "/bug?id=999" 303) ∧
    ¬ (handlerChange envOk ⟨dbOneBug, diskCore⟩ reqChangeNoBug).out = .returned .empty := by
  decide

/-! ## C6: create bug and the files -/

/-- C6 on the code: `handlerNewBug` never touches the files.  In scenario 1 it answers with the
redirect to `/bug?id=0` and the Document in memory has the new Bug and counter 1, while
`bugs.xml` is what it was and a reload gives the Document without the Bug; `handlerChange` in
scenario 2 does rewrite `bugs.xml` and rotates the old file. -/
theorem handlerNewBug_not_persisted :
    (∀ env st r, (handlerNewBug env st r).st.disk = st.disk) ∧
    (handlerNewBug envOk ⟨dbCore, diskCore⟩ reqNewBug).out =
      .returned (.redirect "/bug?id=0" 303) ∧
    (handlerNewBug envOk ⟨dbCore, diskCore⟩ reqNewBug).st.db =
      ⟨1, [], [⟨"core", 1, [⟨0, "Crash on startup", [], none⟩]⟩]⟩ ∧
    (handlerNewBug envOk ⟨dbCore, diskCore⟩ reqNewBug).st.disk = diskCore ∧
    Db.load envOk (handlerNewBug envOk ⟨dbCore, diskCore⟩ reqNewBug).st.disk = some dbCore ∧
    (handlerChange envOk ⟨dbOneBug, diskCore⟩ reqChange).st.disk =
      ⟨some "<?xml?><db/>", some "core.xml", none⟩ := by
  refine ⟨?_, by decide, by decide, by decide, by decide, by decide⟩
  intro env st r
  unfold handlerNewBug
  simp only []
  split
  · rfl
  · split
    · rfl
    · split <;> rfl

/-! ## C8: load and a file that does not decode -/

/-- C8 on the code: `load` returns normally exactly when `bugs.xml` could be opened, whatever
`xml.Unmarshal` returned, and the Document is then what the decoder had stored.  On the
truncated file the decoder reports an error and `load` returns the Document with counter 5
and no Parts. -/
theorem load_returns_on_decode_error :
    (∀ env disk, (Db.load env disk).isSome = disk.config.isSome) ∧
    (∀ env disk bytes, disk.config = some bytes → (env.unmarshal bytes).2 = false →
      Db.load env disk = some (Db.setLast (env.unmarshal bytes).1.toDb)) ∧
    (envTruncated.unmarshal "<db><nextId>5</nextId><part>").2 = false ∧
    Db.load envTruncated diskTruncated = some ⟨5, [], []⟩ := by
  refine ⟨?_, ?_, by decide, by decide⟩
  · intro env disk
    unfold Db.load
    cases disk.config <;> rfl
  · intro env disk bytes hc _
    unfold Db.load
    rw [hc]

/-! ## C9: the subject and the Changes -/

/-- C9 on the code: in scenario 2 with `status=abc`, `handlerChange` panics after it has
overwritten the subject of Bug 0: the subject is "Crash fixed", the Changes are still empty
and nothing has been saved. -/
theorem handlerChange_subject_without_change :
    dbOneBug.bugAt ⟨0, 0⟩ = some ⟨0, "Crash on startup", [], none⟩ ∧
    (handlerChange envOk ⟨dbOneBug, diskCore⟩ reqChangeBadStatus).out = .panicked ∧
    (handlerChange envOk ⟨dbOneBug, diskCore⟩ reqChangeBadStatus).st.db.bugAt ⟨0, 0⟩ =
      some ⟨0, "Crash fixed", [], none⟩ ∧
    (handlerChange envOk ⟨dbOneBug, diskCore⟩ reqChangeBadStatus).st.disk = diskCore := by
  decide

end Bugs
